import Mathlib

/-!
Verification of the streaming file-level driver in programs/fileio.c.

The driver is shallowly embedded: files are byte lists (bytes as Nat),
the incremental codec engine (ZBUFF interface, external to this
repository) is a structure of pure functions, and the unbounded C
while-loops become fuel-indexed recursions whose fuel exhaustion is the
sentinel error code 999 (distinct from every EXM_THROW code in the
source).  Each run also records a trace of observable events (source
reads, codec calls, destination writes) so that claims about "exactly
once", "no read happened" and byte accounting can be stated precisely.
-/

namespace ZstdFio

/-- Observable events of a driver run: source reads, compression
continue / end calls, a decompression init or continue call, a legacy
collaborator delegation, and destination writes. -/
inductive Ev where
  | readSrc (requested got : Nat)
  | ccont (fed used produced : Nat)
  | cend (remaining produced : Nat)
  | dinit
  | dcont (fed : List Nat) (consumed : Nat) (decoded : List Nat) (toRead : Nat)
  | legacy (magic : Nat)
  | write (n : Nat)
  deriving DecidableEq, Repr

/-- MEM_readLE32 : interpret the first 4 bytes of a buffer as a
little-endian 32-bit unsigned integer (mem.h collaborator). -/
def MEM_readLE32 (l : List Nat) : Nat :=
  l.getD 0 0 + 256 * l.getD 1 0 + 65536 * l.getD 2 0 + 16777216 * l.getD 3 0

/-- Result of one ZBUFF_decompressContinue call: the updated context,
the number of input bytes consumed, the decoded output bytes, and the
next requested input size (0 means the frame is fully decoded). -/
structure DStep (δ : Type) where
  dctx : δ
  consumed : Nat
  decoded : List Nat
  toRead : Nat
  deriving DecidableEq, Repr

/-- The buffered decompression engine collaborator (ZBUFF D interface),
as consumed by fileio.c. -/
structure ZBUFF_DEngine (δ : Type) where
  recommendedDInSize : Nat
  recommendedDOutSize : Nat
  createDCtx : δ
  decompressInit : δ → δ
  decompressContinue : δ → List Nat → DStep δ

/-- Result of one ZBUFF_compressContinue call: updated context, number
of input bytes consumed (usedInSize), and produced output bytes. -/
structure CStep (σ : Type) where
  ctx : σ
  used : Nat
  output : List Nat
  deriving DecidableEq, Repr

/-- Result of ZBUFF_compressEnd: updated context, number of bytes still
remaining to flush (0 means fully flushed), and produced output bytes. -/
structure CEnd (σ : Type) where
  ctx : σ
  remaining : Nat
  output : List Nat
  deriving DecidableEq, Repr

/-- The buffered compression engine collaborator (ZBUFF C interface),
as consumed by fileio.c.  initCCtx merges ZBUFF_createCCtx with
ZBUFF_compressInit_advanced(ctx, ZSTD_getParams(cLevel, filesize)). -/
structure ZBUFF_CEngine (σ : Type) where
  recommendedCInSize : Nat
  recommendedCOutSize : Nat
  initCCtx : Int → Nat → σ
  compressContinue : σ → List Nat → CStep σ
  compressEnd : σ → CEnd σ

/-- Result of decoding one current-format frame: the bytes written to
the destination, the remaining (unread) source bytes, the final decoder
context, and the event trace of the frame. -/
structure DFrameRes (δ : Type) where
  output : List Nat
  src : List Nat
  dctx : δ
  trace : List Ev
  deriving DecidableEq, Repr

/-- The main decompression loop of FIO_decompressFrame (fileio.c lines
333-357).  State per iteration: the current contents of inBuff, the
count readSize of buffered-but-unconsumed bytes, and the remaining
source.  Mirroring the source faithfully, the decode call receives the
buffer from offset 0 with length readSize (the local inStart is
re-initialized to 0 at every iteration in the C code, so inBuff+inStart
is always inBuff). -/
def dFrameLoop {δ : Type} (eng : ZBUFF_DEngine δ) (inBuffSize : Nat) :
    Nat → δ → List Nat → Nat → List Nat → List Nat → List Ev → Except Nat (DFrameRes δ)
  | 0, _, _, _, _, _, _ => .error 999
  | fuel + 1, dctx, inBuff, readSize, src, out, tr =>
    let s := eng.decompressContinue dctx (inBuff.take readSize)
    let readSize2 := readSize - s.consumed
    let out2 := out ++ s.decoded
    let tr2 := tr ++ [.dcont (inBuff.take readSize) s.consumed s.decoded s.toRead,
                      .write s.decoded.length]
    if s.toRead = 0 then .ok ⟨out2, src, s.dctx, tr2⟩
    else if readSize2 ≠ 0 then dFrameLoop eng inBuffSize fuel s.dctx inBuff readSize2 src out2 tr2
    else if s.toRead > inBuffSize then .error 34
    else
      let r := src.take s.toRead
      if r.length ≠ s.toRead then .error 35
      else dFrameLoop eng inBuffSize fuel s.dctx r s.toRead (src.drop s.toRead) out2
             (tr2 ++ [.readSrc s.toRead r.length])

/-- FIO_decompressFrame (fileio.c lines 323-360): reinitialize the
decoder session, then run the main decompression loop starting from the
alreadyLoaded bytes sitting at the front of inBuff. -/
def FIO_decompressFrame {δ : Type} (eng : ZBUFF_DEngine δ) (inBuffSize fuel : Nat)
    (dctx : δ) (inBuff : List Nat) (alreadyLoaded : Nat) (src : List Nat) :
    Except Nat (DFrameRes δ) :=
  dFrameLoop eng inBuffSize fuel (eng.decompressInit dctx) inBuff alreadyLoaded src [] [.dinit]

/-- Result of FIO_decompressFilename: bytes written to destination, the
accumulated decoded byte count (filesize), and the event trace. -/
structure DFileRes where
  output : List Nat
  filesize : Nat
  trace : List Ev
  deriving DecidableEq, Repr

/-- The per-frame outer loop of FIO_decompressFilename (fileio.c lines
384-401): read the 4 magic bytes, stop normally on a zero-length read,
fail with code 31 on a short read, dispatch legacy frames to the legacy
collaborator, and otherwise decode a current-format frame with the 4
magic bytes as already-buffered input. -/
def dFileLoop {δ : Type} (eng : ZBUFF_DEngine δ) (isLegacy : Nat → Bool)
    (legacyDecode : Nat → List Nat → List Nat × List Nat) (inBuffSize : Nat) :
    Nat → δ → List Nat → List Nat → Nat → List Ev → Except Nat DFileRes
  | 0, _, _, _, _, _ => .error 999
  | fuel + 1, dctx, src, out, filesize, tr =>
    let r := src.take 4
    if r.length = 0 then .ok ⟨out, filesize, tr ++ [.readSrc 4 0]⟩
    else if r.length ≠ 4 then .error 31
    else
      let m := MEM_readLE32 r
      if isLegacy m then
        let lg := legacyDecode m (src.drop 4)
        dFileLoop eng isLegacy legacyDecode inBuffSize fuel dctx lg.2 (out ++ lg.1)
          (filesize + lg.1.length) (tr ++ [.readSrc 4 4, .legacy m])
      else
        match FIO_decompressFrame eng inBuffSize fuel dctx r 4 (src.drop 4) with
        | .error e => .error e
        | .ok fr =>
          dFileLoop eng isLegacy legacyDecode inBuffSize fuel fr.dctx fr.src (out ++ fr.output)
            (filesize + fr.output.length) (tr ++ [.readSrc 4 4] ++ fr.trace)

/-- FIO_decompressFilename (fileio.c lines 363-414): allocate buffers of
the engine's recommended sizes, create one decoder session reused across
frames, and run the outer frame loop.  The legacy magic predicate
(ZSTD_isLegacy) and the legacy collaborator (FIO_decompressLegacyFrame)
are external to this repository and passed as parameters. -/
def FIO_decompressFilename {δ : Type} (eng : ZBUFF_DEngine δ) (isLegacy : Nat → Bool)
    (legacyDecode : Nat → List Nat → List Nat × List Nat) (fuel : Nat) (src : List Nat) :
    Except Nat DFileRes :=
  dFileLoop eng isLegacy legacyDecode eng.recommendedDInSize fuel eng.createDCtx src [] 0 []

/-- State of the main compression loop of FIO_compressFilename: encoder
context, bytes written so far, compressedfilesize counter, filesize
counter (uncompressed bytes read), event trace. -/
structure CLoopSt (σ : Type) where
  ctx : σ
  written : List Nat
  csize : Nat
  filesize : Nat
  trace : List Ev
  deriving DecidableEq, Repr

/-- The main compression loop of FIO_compressFilename (fileio.c lines
265-293): read up to recommendedCInSize bytes; a zero-length read exits
the loop; otherwise feed the whole chunk to compressContinue once,
fail with code 24 if the chunk is not fully consumed, and write the
produced output. -/
def cLoop {σ : Type} (eng : ZBUFF_CEngine σ) :
    Nat → σ → List Nat → List Nat → Nat → Nat → List Ev → Except Nat (CLoopSt σ)
  | 0, _, _, _, _, _, _ => .error 999
  | fuel + 1, ctx, src, written, csize, filesize, tr =>
    let chunk := src.take eng.recommendedCInSize
    if chunk.length = 0 then
      .ok ⟨ctx, written, csize, filesize, tr ++ [.readSrc eng.recommendedCInSize 0]⟩
    else
      let s := eng.compressContinue ctx chunk
      if chunk.length ≠ s.used then .error 24
      else
        cLoop eng fuel s.ctx (src.drop eng.recommendedCInSize) (written ++ s.output)
          (csize + s.output.length) (filesize + chunk.length)
          (tr ++ [.readSrc eng.recommendedCInSize chunk.length,
                  .ccont chunk.length s.used s.output.length, .write s.output.length])

/-- Result of FIO_compressFilename: the returned compressedfilesize,
the bytes written to the destination, and the event trace. -/
structure CRes where
  compressedfilesize : Nat
  written : List Nat
  trace : List Ev
  deriving DecidableEq, Repr

/-- FIO_compressFilename (fileio.c lines 238-319): initialize the
encoder session from the compression level and the source file size,
run the main compression loop, then invoke compressEnd exactly once;
a non-zero remaining-to-flush return is fatal error 26, otherwise the
end output is written and counted. -/
def FIO_compressFilename {σ : Type} (eng : ZBUFF_CEngine σ) (fuel : Nat)
    (src : List Nat) (cLevel : Int) : Except Nat CRes :=
  match cLoop eng fuel (eng.initCCtx cLevel src.length) src [] 0 0 [] with
  | .error e => .error e
  | .ok st =>
    if (eng.compressEnd st.ctx).remaining ≠ 0 then .error 26
    else .ok ⟨st.csize + (eng.compressEnd st.ctx).output.length,
              st.written ++ (eng.compressEnd st.ctx).output,
              st.trace ++ [.cend (eng.compressEnd st.ctx).remaining
                             (eng.compressEnd st.ctx).output.length,
                           .write (eng.compressEnd st.ctx).output.length]⟩

/-- Environment of the destination branch of FIO_getFileHandles
(fileio.c lines 190-216): whether the destination name is the stdout or
null sentinel, whether a file already exists at the destination path,
the global overwrite flag, the notification level, and the character
getchar would return at the overwrite prompt. -/
structure DstEnv where
  isStdout : Bool
  isNul : Bool
  fileExists : Bool
  overwrite : Bool
  displayLevel : Nat
  answer : Char
  deriving DecidableEq, Repr

/-- Outcome of opening the destination: whether the user was prompted,
and whether an existing file was truncated by the "wb" open. -/
structure DstRes where
  prompted : Bool
  truncatedExisting : Bool
  deriving DecidableEq, Repr

/-- The destination branch of FIO_getFileHandles (fileio.c lines
190-216).  An error carries the EXM_THROW code together with whether
the prompt had been displayed before aborting. -/
def FIO_openDestination (e : DstEnv) : Except (Nat × Bool) DstRes :=
  if e.isStdout then .ok ⟨false, false⟩
  else
    let exOut := !e.isNul && e.fileExists
    if exOut then
      if !e.overwrite then
        if e.displayLevel ≤ 1 then .error (11, false)
        else if e.answer != 'Y' && e.answer != 'y' then .error (11, true)
        else .ok ⟨true, true⟩
      else .ok ⟨false, true⟩
    else .ok ⟨false, false⟩

/-- Modelled from the spec: a concrete instance of the external
buffered compression engine (the ZBUFF C interface of §6, not part of
this repository), used to exercise the driver.  It emits each fed chunk
as a length-prefixed block, prepends a 4-byte magic number to its first
output, always consumes its whole input, and terminates the frame with
a zero-length block marker on compressEnd (remaining-to-flush 0). -/
def MAGIC : List Nat := [1, 2, 3, 4]

/-- Internal state machine of the model decompression engine: expecting
the magic number, expecting a 4-byte block length, or expecting a data
block of the given length. -/
inductive DSt where
  | magic
  | len
  | data (n : Nat)
  deriving DecidableEq, Repr

/-- Model compression engine instance (see MAGIC).  State: whether the
frame header has already been emitted. -/
def toyC : ZBUFF_CEngine Bool where
  recommendedCInSize := 5
  recommendedCOutSize := 18
  initCCtx _ _ := false
  compressContinue st chunk :=
    ⟨true, chunk.length, (if st then [] else MAGIC) ++ chunk.length :: 0 :: 0 :: 0 :: chunk⟩
  compressEnd st := ⟨st, 0, (if st then [] else MAGIC) ++ [0, 0, 0, 0]⟩

/-- Modelled from the spec: a concrete instance of the external
buffered decompression engine (the ZBUFF D interface of §6, not part of
this repository), inverse to toyC: it consumes the 4 magic bytes, then
alternates between 4-byte block-length fields and data blocks; a
zero-length field is the frame terminator (next requested size 0). -/
def toyD : ZBUFF_DEngine DSt where
  recommendedDInSize := 9
  recommendedDOutSize := 9
  createDCtx := .magic
  decompressInit _ := .magic
  decompressContinue st input :=
    match st with
    | .magic => ⟨.len, 4, [], 4⟩
    | .len =>
      let n := MEM_readLE32 input
      if n = 0 then ⟨.magic, 4, [], 0⟩ else ⟨.data n, 4, [], n⟩
    | .data n => ⟨.len, n, input.take n, 4⟩

/-- A misbehaving compression engine that never consumes its input,
used to exercise the driver's internal-consistency check. -/
def badC : ZBUFF_CEngine Unit where
  recommendedCInSize := 5
  recommendedCOutSize := 18
  initCCtx _ _ := ()
  compressContinue _ _ := ⟨(), 0, []⟩
  compressEnd _ := ⟨(), 0, []⟩

/-- A decompression engine that consumes only 2 of the 4 pending bytes
on its first call and requests more input, then finishes: it makes the
driver perform a second decode call on buffered bytes alone.  The
context counts the calls made so far. -/
def bugD : ZBUFF_DEngine Nat where
  recommendedDInSize := 8
  recommendedDOutSize := 8
  createDCtx := 0
  decompressInit _ := 0
  decompressContinue s input :=
    if s = 0 then ⟨1, 2, [], 5⟩ else ⟨2, input.length, [], 0⟩

/-- Event classifier: is this event a compressEnd call. -/
def isCend : Ev → Bool
  | .cend _ _ => true
  | _ => false

/-- Number of output bytes a compressContinue event produced. -/
def ccontProd : Ev → Nat
  | .ccont _ _ p => p
  | _ => 0

/-- Number of output bytes a compressEnd event produced. -/
def cendProd : Ev → Nat
  | .cend _ p => p
  | _ => 0

/-- Sum of a byte-count function over an event trace. -/
def evSum (f : Ev → Nat) (l : List Ev) : Nat := (l.map f).sum

/-- Split a byte list into the chunks a compression run reads: the
model engine's recommended input size is 5. -/
def chunks5 (l : List Nat) : List (List Nat) :=
  match l with
  | [] => []
  | b :: bs => ((b :: bs).take 5) :: chunks5 (bs.drop 4)
termination_by l.length
decreasing_by simp [List.length_drop]; omega

/-- Wire encoding of one block by the model codec: a 4-byte
little-endian length field followed by the block bytes. -/
def encBlock (b : List Nat) : List Nat := b.length :: 0 :: 0 :: 0 :: b

/-- Wire encoding of a block sequence. -/
def encBlocks (bl : List (List Nat)) : List Nat := (bl.map encBlock).flatten

/-- C4: at every frame boundary the outer decompression loop reads 4
magic bytes; a zero-length read terminates the loop normally, while a
read of 1 to 3 bytes fails with the fatal truncated-header error 31. -/
theorem c4_magic_boundary {δ : Type} (eng : ZBUFF_DEngine δ) (isLegacy : Nat → Bool)
    (legacyDecode : Nat → List Nat → List Nat × List Nat) (inBuffSize fuel : Nat)
    (dctx : δ) (out : List Nat) (filesize : Nat) (tr : List Ev) (src : List Nat) :
    (src.length = 0 →
      dFileLoop eng isLegacy legacyDecode inBuffSize (fuel + 1) dctx src out filesize tr
        = .ok ⟨out, filesize, tr ++ [.readSrc 4 0]⟩)
    ∧ (1 ≤ src.length → src.length ≤ 3 →
      dFileLoop eng isLegacy legacyDecode inBuffSize (fuel + 1) dctx src out filesize tr
        = .error 31) := by
  constructor
  · intro h
    rcases List.length_eq_zero.mp h with rfl
    simp [dFileLoop]
  · intro h1 h3
    have ht : (src.take 4).length = src.length := by
      simp [List.length_take]; omega
    simp only [dFileLoop]
    rw [if_neg (by omega), if_pos (by omega)]

/-- C4 witness: an empty source terminates normally and a 2-byte
source aborts with error 31. -/
theorem c4_magic_boundary_witness :
    dFileLoop toyD (fun _ => false) (fun _ s => ([], s)) 9 1 DSt.magic [] [] 0 []
      = .ok ⟨[], 0, [.readSrc 4 0]⟩
    ∧ dFileLoop toyD (fun _ => false) (fun _ s => ([], s)) 9 1 DSt.magic [9, 9] [] 0 []
      = .error 31 :=
  ⟨(c4_magic_boundary toyD (fun _ => false) (fun _ s => ([], s)) 9 0 DSt.magic [] 0 [] []).1
      rfl,
   (c4_magic_boundary toyD (fun _ => false) (fun _ s => ([], s)) 9 0 DSt.magic [] 0 []
      [9, 9]).2 (by decide) (by decide)⟩

/-- C5: for an existing destination file that is neither the stdout nor
the null sentinel: with the overwrite flag unset and notification level
at most 1 the operation aborts with error 11 without prompting; with
prompting possible, any non-affirmative answer aborts with error 11
after the prompt; with the overwrite flag set the existing file is
silently truncated without any prompt. -/
theorem c5_overwrite_gate (e : DstEnv) (hstd : e.isStdout = false)
    (hnul : e.isNul = false) (hex : e.fileExists = true) :
    (e.overwrite = false → e.displayLevel ≤ 1 →
      FIO_openDestination e = .error (11, false))
    ∧ (e.overwrite = false → 2 ≤ e.displayLevel → e.answer ≠ 'Y' → e.answer ≠ 'y' →
      FIO_openDestination e = .error (11, true))
    ∧ (e.overwrite = true → FIO_openDestination e = .ok ⟨false, true⟩) := by
  refine ⟨?_, ?_, ?_⟩
  · intro hov hlev
    simp [FIO_openDestination, hstd, hnul, hex, hov, hlev]
  · intro hov hlev hY hy
    simp [FIO_openDestination, hstd, hnul, hex, hov, hY, hy]
    omega
  · intro hov
    simp [FIO_openDestination, hstd, hnul, hex, hov]

/-- C5 witness: the three overwrite-gate outcomes at concrete
environments. -/
theorem c5_overwrite_gate_witness :
    FIO_openDestination ⟨false, false, true, false, 1, 'N'⟩ = .error (11, false)
    ∧ FIO_openDestination ⟨false, false, true, false, 2, 'N'⟩ = .error (11, true)
    ∧ FIO_openDestination ⟨false, false, true, true, 1, 'N'⟩ = .ok ⟨false, true⟩ :=
  ⟨(c5_overwrite_gate ⟨false, false, true, false, 1, 'N'⟩ rfl rfl rfl).1 rfl (by decide),
   (c5_overwrite_gate ⟨false, false, true, false, 2, 'N'⟩ rfl rfl rfl).2.1 rfl (by decide)
      (by decide) (by decide),
   (c5_overwrite_gate ⟨false, false, true, true, 1, 'N'⟩ rfl rfl rfl).2.2 rfl⟩

/-- C6: in the compression main loop each nonempty chunk is fed to
compressContinue in a single call, and if fewer bytes than fed are
consumed the loop immediately fails with the fatal internal-consistency
error 24. -/
theorem c6_partial_consume_fatal {σ : Type} (eng : ZBUFF_CEngine σ) (fuel : Nat)
    (ctx : σ) (src written : List Nat) (csize filesize : Nat) (tr : List Ev)
    (hne : (src.take eng.recommendedCInSize).length ≠ 0)
    (hlt : (eng.compressContinue ctx (src.take eng.recommendedCInSize)).used
      < (src.take eng.recommendedCInSize).length) :
    cLoop eng (fuel + 1) ctx src written csize filesize tr = .error 24 := by
  simp only [cLoop]
  rw [if_neg hne, if_pos (by omega)]

/-- C6 witness: an engine consuming 0 of a 1-byte chunk makes the loop
abort with error 24. -/
theorem c6_partial_consume_fatal_witness :
    cLoop badC 1 () [9] [] 0 0 [] = .error 24 :=
  c6_partial_consume_fatal badC 0 () [9] [] 0 0 [] (by decide) (by decide)

/-- C8: in the single-frame decode sub-loop, when all buffered bytes
are consumed and the decoder requests toRead further bytes: a request
larger than the input buffer capacity fails with error 34 (block too
large); otherwise exactly toRead bytes are read from the source, a
short read failing with error 35 and a full read looping with the fresh
bytes as the new buffered input. -/
theorem c8_refill {δ : Type} (eng : ZBUFF_DEngine δ) (inBuffSize fuel : Nat)
    (dctx : δ) (inBuff : List Nat) (readSize : Nat) (src out : List Nat) (tr : List Ev)
    (hTR : (eng.decompressContinue dctx (inBuff.take readSize)).toRead ≠ 0)
    (hP : readSize - (eng.decompressContinue dctx (inBuff.take readSize)).consumed = 0) :
    (inBuffSize < (eng.decompressContinue dctx (inBuff.take readSize)).toRead →
      dFrameLoop eng inBuffSize (fuel + 1) dctx inBuff readSize src out tr = .error 34)
    ∧ ((eng.decompressContinue dctx (inBuff.take readSize)).toRead ≤ inBuffSize →
       src.length < (eng.decompressContinue dctx (inBuff.take readSize)).toRead →
      dFrameLoop eng inBuffSize (fuel + 1) dctx inBuff readSize src out tr = .error 35)
    ∧ ((eng.decompressContinue dctx (inBuff.take readSize)).toRead ≤ inBuffSize →
       (eng.decompressContinue dctx (inBuff.take readSize)).toRead ≤ src.length →
      dFrameLoop eng inBuffSize (fuel + 1) dctx inBuff readSize src out tr
        = dFrameLoop eng inBuffSize fuel
            (eng.decompressContinue dctx (inBuff.take readSize)).dctx
            (src.take (eng.decompressContinue dctx (inBuff.take readSize)).toRead)
            (eng.decompressContinue dctx (inBuff.take readSize)).toRead
            (src.drop (eng.decompressContinue dctx (inBuff.take readSize)).toRead)
            (out ++ (eng.decompressContinue dctx (inBuff.take readSize)).decoded)
            (tr ++ [.dcont (inBuff.take readSize)
                      (eng.decompressContinue dctx (inBuff.take readSize)).consumed
                      (eng.decompressContinue dctx (inBuff.take readSize)).decoded
                      (eng.decompressContinue dctx (inBuff.take readSize)).toRead,
                    .write (eng.decompressContinue dctx (inBuff.take readSize)).decoded.length,
                    .readSrc (eng.decompressContinue dctx (inBuff.take readSize)).toRead
                      (eng.decompressContinue dctx (inBuff.take readSize)).toRead])) := by
  set s := eng.decompressContinue dctx (inBuff.take readSize) with hs
  refine ⟨?_, ?_, ?_⟩
  · intro hcap
    simp only [dFrameLoop, ← hs]
    rw [if_neg hTR, if_neg (by omega), if_pos (by omega)]
  · intro hcap hshort
    have ht : (src.take s.toRead).length = src.length := by
      simp [List.length_take]; omega
    simp only [dFrameLoop, ← hs]
    rw [if_neg hTR, if_neg (by omega), if_neg (by omega), if_pos (by omega)]
  · intro hcap havail
    have ht : (src.take s.toRead).length = s.toRead := by
      simp [List.length_take]; omega
    simp only [dFrameLoop, ← hs]
    rw [if_neg hTR, if_neg (by omega), if_neg (by omega), if_neg (by omega)]
    rw [ht]
    simp

/-- C8 witness: the toyD engine consumes all 4 buffered magic bytes and
requests 4 more; with capacity 1 the sub-loop aborts with error 34,
with a 3-byte source it aborts with error 35, and with 5 source bytes
it reads exactly 4 and loops. -/
theorem c8_refill_witness :
    dFrameLoop toyD 1 1 DSt.magic [10, 20, 30, 40] 4 [7, 7, 7] [] [] = .error 34
    ∧ dFrameLoop toyD 9 1 DSt.magic [10, 20, 30, 40] 4 [7, 7, 7] [] [] = .error 35
    ∧ dFrameLoop toyD 9 1 DSt.magic [10, 20, 30, 40] 4 [7, 7, 7, 7, 7] [] []
      = dFrameLoop toyD 9 0 DSt.len [7, 7, 7, 7] 4 [7] []
          [.dcont [10, 20, 30, 40] 4 [] 4, .write 0, .readSrc 4 4] :=
  ⟨(c8_refill toyD 1 0 DSt.magic [10, 20, 30, 40] 4 [7, 7, 7] [] [] (by decide)
      (by decide)).1 (by decide),
   (c8_refill toyD 9 0 DSt.magic [10, 20, 30, 40] 4 [7, 7, 7] [] [] (by decide)
      (by decide)).2.1 (by decide) (by decide),
   (c8_refill toyD 9 0 DSt.magic [10, 20, 30, 40] 4 [7, 7, 7, 7, 7] [] [] (by decide)
      (by decide)).2.2 (by decide) (by decide)⟩

/-- C1: the claim requires the second decompressContinue call to
receive precisely the remaining unconsumed bytes.  In the source,
inStart is re-initialized to 0 at every iteration of the loop (line
338), so after the first call consumes 2 of the 4 pending bytes the
second call receives the first 2 bytes of the buffer ([10, 20], already
consumed) instead of the remaining unconsumed bytes ([30, 40]); the
pending count is correctly reduced and no source read happens, as the
trace shows. -/
theorem c1_stale_window :
    FIO_decompressFrame bugD 8 5 0 [10, 20, 30, 40] 4 []
      = .ok ⟨[], [], 2, [.dinit, .dcont [10, 20, 30, 40] 2 [] 5, .write 0,
                         .dcont [10, 20] 2 [] 0, .write 0]⟩
    ∧ [10, 20] ≠ List.take 2 (List.drop 2 [10, 20, 30, 40]) := by
  constructor
  · rfl
  · decide

/-- The single-frame decode loop only appends events to the trace it is
given, and none of the appended events is a legacy delegation. -/
theorem dFrameLoop_trace {δ : Type} (eng : ZBUFF_DEngine δ) (inBuffSize : Nat) :
    ∀ (fuel : Nat) (dctx : δ) (inBuff : List Nat) (readSize : Nat) (src out : List Nat)
      (tr : List Ev) (r : DFrameRes δ),
      dFrameLoop eng inBuffSize fuel dctx inBuff readSize src out tr = .ok r →
      ∃ d, r.trace = tr ++ d ∧ ∀ m, Ev.legacy m ∉ d := by
  intro fuel
  induction fuel with
  | zero =>
    intro dctx inBuff readSize src out tr r h
    simp [dFrameLoop] at h
  | succ n ih =>
    intro dctx inBuff readSize src out tr r h
    simp only [dFrameLoop] at h
    set s := eng.decompressContinue dctx (inBuff.take readSize) with hs
    by_cases h0 : s.toRead = 0
    · rw [if_pos h0] at h
      cases h
      refine ⟨[.dcont (inBuff.take readSize) s.consumed s.decoded s.toRead,
        .write s.decoded.length], rfl, ?_⟩
      intro m
      simp
    · rw [if_neg h0] at h
      by_cases h1 : readSize - s.consumed ≠ 0
      · rw [if_pos h1] at h
        obtain ⟨d, hd, hnl⟩ := ih _ _ _ _ _ _ _ h
        refine ⟨[.dcont (inBuff.take readSize) s.consumed s.decoded s.toRead,
          .write s.decoded.length] ++ d, by rw [hd]; simp, ?_⟩
        intro m
        simp only [List.mem_append, List.mem_cons, List.not_mem_nil]
        rintro (⟨h2 | h2 | h2⟩ | h2) <;>
          first | exact Ev.noConfusion h2 | exact h2 | exact hnl m h2
      · rw [if_neg h1] at h
        by_cases h2 : inBuffSize < s.toRead
        · rw [if_pos h2] at h
          exact absurd h (by simp)
        · rw [if_neg h2] at h
          by_cases h3 : (src.take s.toRead).length ≠ s.toRead
          · rw [if_pos h3] at h
            exact absurd h (by simp)
          · rw [if_neg h3] at h
            obtain ⟨d, hd, hnl⟩ := ih _ _ _ _ _ _ _ h
            refine ⟨[.dcont (inBuff.take readSize) s.consumed s.decoded s.toRead,
              .write s.decoded.length, .readSrc s.toRead (src.take s.toRead).length] ++ d,
              by rw [hd]; simp, ?_⟩
            intro m
            simp only [List.mem_append, List.mem_cons, List.not_mem_nil]
            rintro (⟨h4 | h4 | h4 | h4⟩ | h4) <;>
              first | exact Ev.noConfusion h4 | exact h4 | exact hnl m h4

/-- On success, the first two events a single-frame decode loop run
appends are the decode call on the initially buffered bytes and the
write of its output. -/
theorem dFrameLoop_first_events {δ : Type} (eng : ZBUFF_DEngine δ) (inBuffSize n : Nat)
    (dctx : δ) (inBuff : List Nat) (readSize : Nat) (src out : List Nat)
    (tr : List Ev) (r : DFrameRes δ)
    (h : dFrameLoop eng inBuffSize (n + 1) dctx inBuff readSize src out tr = .ok r) :
    ∃ rest, r.trace = tr
      ++ [.dcont (inBuff.take readSize)
            (eng.decompressContinue dctx (inBuff.take readSize)).consumed
            (eng.decompressContinue dctx (inBuff.take readSize)).decoded
            (eng.decompressContinue dctx (inBuff.take readSize)).toRead,
          .write (eng.decompressContinue dctx (inBuff.take readSize)).decoded.length]
      ++ rest := by
  simp only [dFrameLoop] at h
  by_cases h0 : (eng.decompressContinue dctx (inBuff.take readSize)).toRead = 0
  · rw [if_pos h0] at h
    cases h
    exact ⟨[], by simp⟩
  · rw [if_neg h0] at h
    by_cases h1 : readSize - (eng.decompressContinue dctx (inBuff.take readSize)).consumed ≠ 0
    · rw [if_pos h1] at h
      obtain ⟨d, hd, _⟩ := dFrameLoop_trace eng inBuffSize _ _ _ _ _ _ _ _ h
      exact ⟨d, by simp [hd]⟩
    · rw [if_neg h1] at h
      by_cases h2 : inBuffSize < (eng.decompressContinue dctx (inBuff.take readSize)).toRead
      · rw [if_pos h2] at h
        exact absurd h (by simp)
      · rw [if_neg h2] at h
        by_cases h3 : (src.take (eng.decompressContinue dctx (inBuff.take readSize)).toRead).length
            ≠ (eng.decompressContinue dctx (inBuff.take readSize)).toRead
        · rw [if_pos h3] at h
          exact absurd h (by simp)
        · rw [if_neg h3] at h
          obtain ⟨d, hd, _⟩ := dFrameLoop_trace eng inBuffSize _ _ _ _ _ _ _ _ h
          refine ⟨[.readSrc (eng.decompressContinue dctx (inBuff.take readSize)).toRead
              (src.take (eng.decompressContinue dctx (inBuff.take readSize)).toRead).length]
              ++ d, by rw [hd]; simp⟩

/-- C3: each outer-loop frame is classified by the little-endian value
of its first 4 bytes.  A legacy magic delegates the frame to the legacy
collaborator exactly once (one legacy event, whole remaining source
handed over); otherwise the frame enters the current-format sub-loop
with the 4 magic bytes as already-buffered input, so the first decode
call of the frame receives exactly those 4 bytes (pending = 4), and no
legacy event is ever emitted by the sub-loop. -/
theorem c3_frame_dispatch {δ : Type} (eng : ZBUFF_DEngine δ) (isLegacy : Nat → Bool)
    (legacyDecode : Nat → List Nat → List Nat × List Nat) (inBuffSize fuel : Nat)
    (dctx : δ) (src out : List Nat) (filesize : Nat) (tr : List Ev)
    (h4 : 4 ≤ src.length) :
    (isLegacy (MEM_readLE32 (src.take 4)) = true →
      dFileLoop eng isLegacy legacyDecode inBuffSize (fuel + 1) dctx src out filesize tr
        = dFileLoop eng isLegacy legacyDecode inBuffSize fuel dctx
            (legacyDecode (MEM_readLE32 (src.take 4)) (src.drop 4)).2
            (out ++ (legacyDecode (MEM_readLE32 (src.take 4)) (src.drop 4)).1)
            (filesize + (legacyDecode (MEM_readLE32 (src.take 4)) (src.drop 4)).1.length)
            (tr ++ [.readSrc 4 4, .legacy (MEM_readLE32 (src.take 4))]))
    ∧ (isLegacy (MEM_readLE32 (src.take 4)) = false →
      dFileLoop eng isLegacy legacyDecode inBuffSize (fuel + 1) dctx src out filesize tr
        = match FIO_decompressFrame eng inBuffSize fuel dctx (src.take 4) 4 (src.drop 4) with
          | .error e => .error e
          | .ok fr => dFileLoop eng isLegacy legacyDecode inBuffSize fuel fr.dctx fr.src
              (out ++ fr.output) (filesize + fr.output.length)
              (tr ++ [.readSrc 4 4] ++ fr.trace))
    ∧ (∀ f2 fr, fuel = f2 + 1 →
        FIO_decompressFrame eng inBuffSize fuel dctx (src.take 4) 4 (src.drop 4) = .ok fr →
        (∃ rest, fr.trace = .dinit
            :: .dcont (src.take 4)
                 (eng.decompressContinue (eng.decompressInit dctx) (src.take 4)).consumed
                 (eng.decompressContinue (eng.decompressInit dctx) (src.take 4)).decoded
                 (eng.decompressContinue (eng.decompressInit dctx) (src.take 4)).toRead
            :: rest)
          ∧ ∀ m, Ev.legacy m ∉ fr.trace) := by
  have ht : (src.take 4).length = 4 := by
    simp [List.length_take]; omega
  have htt : (src.take 4).take 4 = src.take 4 := by
    simp [List.take_take]
  refine ⟨?_, ?_, ?_⟩
  · intro hleg
    simp only [dFileLoop]
    rw [if_neg (by omega), if_neg (by omega), if_pos hleg]
  · intro hleg
    simp only [dFileLoop]
    rw [if_neg (by omega), if_neg (by omega), if_neg (by simp [hleg])]
  · intro f2 fr hf hok
    subst hf
    unfold FIO_decompressFrame at hok
    constructor
    · obtain ⟨rest, hr⟩ := dFrameLoop_first_events eng inBuffSize f2
        (eng.decompressInit dctx) (src.take 4) 4 (src.drop 4) [] [.dinit] fr hok
      rw [htt] at hr
      exact ⟨.write (eng.decompressContinue (eng.decompressInit dctx)
        (src.take 4)).decoded.length :: rest, by simp [hr]⟩
    · obtain ⟨d, hd, hnl⟩ := dFrameLoop_trace eng inBuffSize _ _ _ _ _ _ _ _ hok
      intro m hm
      rw [hd] at hm
      rcases List.mem_append.mp hm with h5 | h5
      · simp at h5
      · exact hnl m h5

/-- C3 witness: a frame with the legacy magic value 5 is handed to the
legacy collaborator once; the model frame behind a non-legacy magic is
decoded by the sub-loop whose first decode call is fed the 4 magic
bytes. -/
theorem c3_frame_dispatch_witness :
    (dFileLoop toyD (fun m => m == 5) (fun _ s => (s, [])) 9 3 DSt.magic
        ([5, 0, 0, 0] ++ [8]) [] 0 []
      = dFileLoop toyD (fun m => m == 5) (fun _ s => (s, [])) 9 2 DSt.magic
          [] ([] ++ [8]) (0 + 1) ([] ++ [.readSrc 4 4, .legacy 5]))
    ∧ (∃ rest, ([.dinit, .dcont [1, 2, 3, 4] 4 [] 4, .write 0, .readSrc 4 4,
          .dcont [0, 0, 0, 0] 4 [] 0, .write 0] : List Ev)
        = .dinit :: .dcont [1, 2, 3, 4] 4 [] 4 :: rest) := by
  constructor
  · exact (c3_frame_dispatch toyD (fun m => m == 5) (fun _ s => (s, [])) 9 2 DSt.magic
      ([5, 0, 0, 0] ++ [8]) [] 0 [] (by decide)).1 (by decide)
  · exact ((c3_frame_dispatch toyD (fun m => m == 5) (fun _ s => (s, [])) 9 2 DSt.magic
      ([1, 2, 3, 4] ++ [0, 0, 0, 0]) [] 0 [] (by decide)).2.2 1
      ⟨[], [], DSt.magic, [.dinit, .dcont [1, 2, 3, 4] 4 [] 4, .write 0, .readSrc 4 4,
        .dcont [0, 0, 0, 0] 4 [] 0, .write 0]⟩ rfl (by rfl)).1


theorem evSum_append (f : Ev → Nat) (a b : List Ev) :
    evSum f (a ++ b) = evSum f a + evSum f b := by
  simp [evSum]

/-- Accounting invariant of the main compression loop: on success it
appends only readSrc/ccont/write events (never a cend event), and it
increases both the compressedfilesize counter and the written byte
count by exactly the sum of the compressContinue output sizes. -/
theorem cLoop_acct {σ : Type} (eng : ZBUFF_CEngine σ) :
    ∀ (fuel : Nat) (ctx : σ) (src written : List Nat) (csize filesize : Nat)
      (tr : List Ev) (st : CLoopSt σ),
      cLoop eng fuel ctx src written csize filesize tr = .ok st →
      ∃ d, st.trace = tr ++ d ∧ d.countP isCend = 0 ∧ evSum cendProd d = 0
        ∧ st.csize = csize + evSum ccontProd d
        ∧ st.written.length = written.length + evSum ccontProd d := by
  intro fuel
  induction fuel with
  | zero =>
    intro ctx src written csize filesize tr st h
    simp [cLoop] at h
  | succ n ih =>
    intro ctx src written csize filesize tr st h
    simp only [cLoop] at h
    by_cases hc : (src.take eng.recommendedCInSize).length = 0
    · rw [if_pos hc] at h
      cases h
      exact ⟨[.readSrc eng.recommendedCInSize 0], rfl, by simp [List.countP_cons, isCend],
        by simp [evSum, cendProd], by simp [evSum, ccontProd], by simp [evSum, ccontProd]⟩
    · rw [if_neg hc] at h
      by_cases hu : (src.take eng.recommendedCInSize).length
          ≠ (eng.compressContinue ctx (src.take eng.recommendedCInSize)).used
      · rw [if_pos hu] at h
        exact absurd h (by simp)
      · rw [if_neg hu] at h
        obtain ⟨d, hd, hcnt, hce, hcs, hwl⟩ := ih _ _ _ _ _ _ _ h
        refine ⟨[.readSrc eng.recommendedCInSize (src.take eng.recommendedCInSize).length,
            .ccont (src.take eng.recommendedCInSize).length
              (eng.compressContinue ctx (src.take eng.recommendedCInSize)).used
              (eng.compressContinue ctx (src.take eng.recommendedCInSize)).output.length,
            .write (eng.compressContinue ctx (src.take eng.recommendedCInSize)).output.length]
            ++ d, ?_, ?_, ?_, ?_, ?_⟩
        · rw [hd]; simp
        · simp [List.countP_append, hcnt, isCend]
        · rw [evSum_append, hce]; simp [evSum, cendProd]
        · rw [evSum_append, hcs]; simp [evSum, ccontProd]; omega
        · rw [evSum_append, hwl]; simp [evSum, ccontProd]; omega

/-- Unfolding equation for FIO_compressFilename once the main loop has
succeeded. -/
theorem FIO_compressFilename_ok_unfold {σ : Type} (eng : ZBUFF_CEngine σ) (fuel : Nat)
    (src : List Nat) (lvl : Int) (st : CLoopSt σ)
    (hl : cLoop eng fuel (eng.initCCtx lvl src.length) src [] 0 0 [] = .ok st) :
    FIO_compressFilename eng fuel src lvl
      = if (eng.compressEnd st.ctx).remaining ≠ 0 then .error 26
        else .ok ⟨st.csize + (eng.compressEnd st.ctx).output.length,
                  st.written ++ (eng.compressEnd st.ctx).output,
                  st.trace ++ [.cend (eng.compressEnd st.ctx).remaining
                                 (eng.compressEnd st.ctx).output.length,
                               .write (eng.compressEnd st.ctx).output.length]⟩ := by
  unfold FIO_compressFilename
  rw [hl]

/-- C9: when FIO_compressFilename succeeds, its returned value equals
the total number of compressed bytes written to the destination, which
is the sum of the output byte counts of every compressContinue call
plus the output byte count of the final compressEnd call. -/
theorem c9_return_accounting {σ : Type} (eng : ZBUFF_CEngine σ) (fuel : Nat)
    (src : List Nat) (lvl : Int) (r : CRes)
    (h : FIO_compressFilename eng fuel src lvl = .ok r) :
    r.compressedfilesize = evSum ccontProd r.trace + evSum cendProd r.trace
    ∧ r.compressedfilesize = r.written.length := by
  cases hl : cLoop eng fuel (eng.initCCtx lvl src.length) src [] 0 0 [] with
  | error e =>
    unfold FIO_compressFilename at h
    rw [hl] at h
    exact absurd h (by simp)
  | ok st =>
    rw [FIO_compressFilename_ok_unfold eng fuel src lvl st hl] at h
    obtain ⟨d, hd, hcnt, hce, hcs, hwl⟩ := cLoop_acct eng _ _ _ _ _ _ _ _ hl
    by_cases hr : (eng.compressEnd st.ctx).remaining ≠ 0
    · rw [if_pos hr] at h; exact absurd h (by simp)
    · rw [if_neg hr] at h
      cases h
      simp only [List.length_nil] at hwl
      have e1 : evSum ccontProd [Ev.cend (eng.compressEnd st.ctx).remaining
            (eng.compressEnd st.ctx).output.length,
          Ev.write (eng.compressEnd st.ctx).output.length] = 0 := by
        simp [evSum, ccontProd]
      have e2 : evSum cendProd [Ev.cend (eng.compressEnd st.ctx).remaining
            (eng.compressEnd st.ctx).output.length,
          Ev.write (eng.compressEnd st.ctx).output.length]
          = (eng.compressEnd st.ctx).output.length := by
        simp [evSum, cendProd]
      constructor
      · simp only [hd, List.nil_append, evSum_append, e1, e2]
        omega
      · simp only [List.length_append]
        omega

/-- C9 witness: a one-byte source compressed with the model engine
returns 13, the 9 continue-output bytes plus the 4 end-output bytes,
equal to the total written. -/
theorem c9_return_accounting_witness :
    (13 : Nat) = evSum ccontProd [.readSrc 5 1, .ccont 1 1 9, .write 9, .readSrc 5 0,
        .cend 0 4, .write 4] + evSum cendProd [.readSrc 5 1, .ccont 1 1 9, .write 9,
        .readSrc 5 0, .cend 0 4, .write 4]
    ∧ (13 : Nat) = ([1, 2, 3, 4, 1, 0, 0, 0, 7] ++ [0, 0, 0, 0] : List Nat).length :=
  c9_return_accounting toyC 2 [7] 1
    ⟨13, [1, 2, 3, 4, 1, 0, 0, 0, 7] ++ [0, 0, 0, 0],
     [.readSrc 5 1, .ccont 1 1 9, .write 9, .readSrc 5 0, .cend 0 4, .write 4]⟩ rfl

/-- C7: the compressEnd flush happens exactly once per successful
compression run (exactly one cend event in the trace), and a non-zero
remaining-to-flush return from that single call is the fatal error 26,
while a zero return appends the end output to the destination. -/
theorem c7_single_end_flush {σ : Type} (eng : ZBUFF_CEngine σ) (fuel : Nat)
    (src : List Nat) (lvl : Int) :
    (∀ r, FIO_compressFilename eng fuel src lvl = .ok r → r.trace.countP isCend = 1)
    ∧ (∀ st, cLoop eng fuel (eng.initCCtx lvl src.length) src [] 0 0 [] = .ok st →
        ((eng.compressEnd st.ctx).remaining ≠ 0 →
          FIO_compressFilename eng fuel src lvl = .error 26)
        ∧ ((eng.compressEnd st.ctx).remaining = 0 →
          FIO_compressFilename eng fuel src lvl
            = .ok ⟨st.csize + (eng.compressEnd st.ctx).output.length,
                   st.written ++ (eng.compressEnd st.ctx).output,
                   st.trace ++ [.cend 0 (eng.compressEnd st.ctx).output.length,
                                .write (eng.compressEnd st.ctx).output.length]⟩)) := by
  constructor
  · intro r h
    cases hl : cLoop eng fuel (eng.initCCtx lvl src.length) src [] 0 0 [] with
    | error e =>
      unfold FIO_compressFilename at h
      rw [hl] at h
      exact absurd h (by simp)
    | ok st =>
      rw [FIO_compressFilename_ok_unfold eng fuel src lvl st hl] at h
      obtain ⟨d, hd, hcnt, _, _, _⟩ := cLoop_acct eng _ _ _ _ _ _ _ _ hl
      by_cases hr : (eng.compressEnd st.ctx).remaining ≠ 0
      · rw [if_pos hr] at h; exact absurd h (by simp)
      · rw [if_neg hr] at h
        cases h
        simp [hd, List.countP_append, hcnt, isCend]
  · intro st hl
    constructor
    · intro hr
      rw [FIO_compressFilename_ok_unfold eng fuel src lvl st hl]
      rw [if_pos hr]
    · intro hr
      rw [FIO_compressFilename_ok_unfold eng fuel src lvl st hl]
      simp [hr]

/-- C7 witness: the model run on a one-byte source flushes exactly
once; its final trace holds a single cend event. -/
theorem c7_single_end_flush_witness :
    FIO_compressFilename toyC 2 [7] 1
      = .ok ⟨9 + 4, [1, 2, 3, 4, 1, 0, 0, 0, 7] ++ [0, 0, 0, 0],
             [.readSrc 5 1, .ccont 1 1 9, .write 9, .readSrc 5 0] ++ [.cend 0 4, .write 4]⟩
    ∧ ([.readSrc 5 1, .ccont 1 1 9, .write 9, .readSrc 5 0, .cend 0 4,
        .write 4] : List Ev).countP isCend = 1 := by
  have h2 := ((c7_single_end_flush toyC 2 [7] 1).2
    ⟨true, [1, 2, 3, 4, 1, 0, 0, 0, 7], 9, 1,
     [.readSrc 5 1, .ccont 1 1 9, .write 9, .readSrc 5 0]⟩ rfl).2 rfl
  exact ⟨h2, (c7_single_end_flush toyC 2 [7] 1).1 _ h2⟩

/-- C10: on an empty source the very first read returns zero bytes, the
compress-continue loop body never runs (no ccont event), yet the
compressEnd flush still happens and its output is written, so the
destination receives exactly the end output and the returned count is
its size. -/
theorem c10_empty_source {σ : Type} (eng : ZBUFF_CEngine σ) (fuel : Nat) (lvl : Int)
    (h : (eng.compressEnd (eng.initCCtx lvl 0)).remaining = 0) :
    FIO_compressFilename eng (fuel + 1) [] lvl
      = .ok ⟨(eng.compressEnd (eng.initCCtx lvl 0)).output.length,
             (eng.compressEnd (eng.initCCtx lvl 0)).output,
             [.readSrc eng.recommendedCInSize 0,
              .cend 0 (eng.compressEnd (eng.initCCtx lvl 0)).output.length,
              .write (eng.compressEnd (eng.initCCtx lvl 0)).output.length]⟩ := by
  simp [FIO_compressFilename, cLoop, h]

/-- C10 witness: compressing the empty source with the model engine
writes just the 8 terminator bytes and returns 8. -/
theorem c10_empty_source_witness :
    FIO_compressFilename toyC 1 [] 1
      = .ok ⟨8, [1, 2, 3, 4, 0, 0, 0, 0], [.readSrc 5 0, .cend 0 8, .write 8]⟩ :=
  c10_empty_source toyC 0 1 rfl

theorem toyC_inSize : toyC.recommendedCInSize = 5 := rfl

theorem toyC_cont (st : Bool) (chunk : List Nat) :
    toyC.compressContinue st chunk
      = ⟨true, chunk.length, (if st then [] else MAGIC) ++ chunk.length :: 0 :: 0 :: 0 :: chunk⟩ :=
  rfl

theorem toyC_end (st : Bool) :
    toyC.compressEnd st = ⟨st, 0, (if st then [] else MAGIC) ++ [0, 0, 0, 0]⟩ := rfl

theorem toyD_inSize : toyD.recommendedDInSize = 9 := rfl

theorem toyD_cont_magic (input : List Nat) :
    toyD.decompressContinue .magic input = ⟨.len, 4, [], 4⟩ := rfl

theorem toyD_cont_len (input : List Nat) :
    toyD.decompressContinue .len input
      = if MEM_readLE32 input = 0 then ⟨.magic, 4, [], 0⟩
        else ⟨.data (MEM_readLE32 input), 4, [], MEM_readLE32 input⟩ := rfl

theorem toyD_cont_data (n : Nat) (input : List Nat) :
    toyD.decompressContinue (.data n) input = ⟨.len, n, input.take n, 4⟩ := rfl


theorem encBlocks_cons (x : List Nat) (xs : List (List Nat)) :
    encBlocks (x :: xs) = encBlock x ++ encBlocks xs := by
  simp [encBlocks]

theorem chunks5_flatten : ∀ (n : Nat) (B : List Nat), B.length ≤ n →
    (chunks5 B).flatten = B := by
  intro n
  induction n with
  | zero =>
    intro B h
    have : B = [] := List.length_eq_zero.mp (by omega)
    subst this
    simp [chunks5]
  | succ m ih =>
    intro B h
    cases B with
    | nil => simp [chunks5]
    | cons b bs =>
      have h2 : (bs.drop 4).length ≤ m := by
        simp [List.length_drop] at h ⊢
        omega
      have h3 : (b :: bs).drop 5 = bs.drop 4 := rfl
      calc (chunks5 (b :: bs)).flatten
          = (b :: bs).take 5 ++ (chunks5 (bs.drop 4)).flatten := by
            rw [chunks5]; simp
        _ = (b :: bs).take 5 ++ bs.drop 4 := by rw [ih _ h2]
        _ = (b :: bs).take 5 ++ (b :: bs).drop 5 := by rw [h3]
        _ = b :: bs := List.take_append_drop 5 (b :: bs)

theorem chunks5_size : ∀ (n : Nat) (B : List Nat), B.length ≤ n →
    ∀ b ∈ chunks5 B, 1 ≤ b.length ∧ b.length ≤ 5 := by
  intro n
  induction n with
  | zero =>
    intro B h
    have : B = [] := List.length_eq_zero.mp (by omega)
    subst this
    simp [chunks5]
  | succ m ih =>
    intro B h
    cases B with
    | nil => simp [chunks5]
    | cons b bs =>
      intro c hc
      rw [chunks5] at hc
      rcases List.mem_cons.mp hc with h4 | h4
      · subst h4
        simp [List.length_take]
      · exact ih _ (by simp [List.length_drop] at h ⊢; omega) c h4

/-- The compression loop of the driver, run with the model engine,
writes the frame header (on its first output) followed by the
length-prefixed encoding of the source's chunks. -/
theorem cLoopToy : ∀ (n : Nat) (B : List Nat) (st : Bool) (acc : List Nat)
    (cs fs : Nat) (tr : List Ev), B.length < n →
    ∃ cs2 fs2 tr2, cLoop toyC n st B acc cs fs tr
      = .ok ⟨st || !B.isEmpty,
             acc ++ ((if (st || B.isEmpty : Bool) then [] else MAGIC)
               ++ encBlocks (chunks5 B)), cs2, fs2, tr2⟩ := by
  intro n
  induction n with
  | zero =>
    intro B st acc cs fs tr h
    omega
  | succ m ih =>
    intro B st acc cs fs tr h
    cases B with
    | nil =>
      refine ⟨cs, fs, tr ++ [.readSrc 5 0], ?_⟩
      simp [cLoop, toyC_inSize, chunks5, encBlocks]
    | cons b bs =>
      have hne : (((b :: bs)).take 5).length ≠ 0 := by simp [List.length_take]
      obtain ⟨cs2, fs2, tr2, ihh⟩ := ih ((b :: bs).drop 5) true
        (acc ++ ((if st then [] else MAGIC)
          ++ ((b :: bs).take 5).length :: 0 :: 0 :: 0 :: ((b :: bs).take 5)))
        (cs + ((if st then [] else MAGIC)
          ++ ((b :: bs).take 5).length :: 0 :: 0 :: 0 :: ((b :: bs).take 5)).length)
        (fs + ((b :: bs).take 5).length)
        (tr ++ [.readSrc 5 ((b :: bs).take 5).length,
                .ccont ((b :: bs).take 5).length ((b :: bs).take 5).length
                  ((if st then [] else MAGIC)
                    ++ ((b :: bs).take 5).length :: 0 :: 0 :: 0 :: ((b :: bs).take 5)).length,
                .write ((if st then [] else MAGIC)
                  ++ ((b :: bs).take 5).length :: 0 :: 0 :: 0 :: ((b :: bs).take 5)).length])
        (by simp [List.length_drop] at h ⊢; omega)
      refine ⟨cs2, fs2, tr2, ?_⟩
      have hstep : cLoop toyC (m + 1) st (b :: bs) acc cs fs tr
          = cLoop toyC m true ((b :: bs).drop 5)
              (acc ++ ((if st then [] else MAGIC)
                ++ ((b :: bs).take 5).length :: 0 :: 0 :: 0 :: ((b :: bs).take 5)))
              (cs + ((if st then [] else MAGIC)
                ++ ((b :: bs).take 5).length :: 0 :: 0 :: 0 :: ((b :: bs).take 5)).length)
              (fs + ((b :: bs).take 5).length)
              (tr ++ [.readSrc 5 ((b :: bs).take 5).length,
                      .ccont ((b :: bs).take 5).length ((b :: bs).take 5).length
                        ((if st then [] else MAGIC)
                          ++ ((b :: bs).take 5).length :: 0 :: 0 :: 0 :: ((b :: bs).take 5)).length,
                      .write ((if st then [] else MAGIC)
                        ++ ((b :: bs).take 5).length :: 0 :: 0 :: 0 :: ((b :: bs).take 5)).length]) := by
        simp only [cLoop, toyC_inSize, toyC_cont]
        rw [if_neg hne, if_neg (by simp)]
      rw [hstep, ihh]
      have hch : chunks5 (b :: bs) = ((b :: bs).take 5) :: chunks5 (bs.drop 4) := by
        rw [chunks5]
      rw [hch, encBlocks_cons]
      simp [encBlock, List.append_assoc]

theorem toyD_init (d : DSt) : toyD.decompressInit d = DSt.magic := rfl

theorem toyD_create : toyD.createDCtx = DSt.magic := rfl

theorem chunks5_len : ∀ (n : Nat) (B : List Nat), B.length ≤ n →
    (chunks5 B).length ≤ B.length := by
  intro n
  induction n with
  | zero =>
    intro B h
    have : B = [] := List.length_eq_zero.mp (by omega)
    subst this
    simp [chunks5]
  | succ m ih =>
    intro B h
    cases B with
    | nil => simp [chunks5]
    | cons b bs =>
      rw [chunks5]
      have h2 : (bs.drop 4).length ≤ m := by
        simp [List.length_drop] at h ⊢
        omega
      have h3 := ih (bs.drop 4) h2
      simp [List.length_drop] at h3 ⊢
      omega

/-- FIO_compressFilename with the model engine writes the magic number
followed by the length-prefixed chunk encoding and the zero-length
terminator. -/
theorem compressToy (B : List Nat) :
    ∃ cs2 tr2, FIO_compressFilename toyC (B.length + 1) B 1
      = .ok ⟨cs2, MAGIC ++ (encBlocks (chunks5 B) ++ [0, 0, 0, 0]), tr2⟩ := by
  obtain ⟨cs2, fs2, tr2, hl⟩ := cLoopToy (B.length + 1) B false [] 0 0 [] (by omega)
  have hu := FIO_compressFilename_ok_unfold toyC (B.length + 1) B 1
      ⟨false || !B.isEmpty,
       [] ++ ((if (false || B.isEmpty : Bool) then [] else MAGIC) ++ encBlocks (chunks5 B)),
       cs2, fs2, tr2⟩ hl
  simp only [toyC_end] at hu
  refine ⟨cs2 + ((if (false || !B.isEmpty : Bool) then ([] : List Nat) else MAGIC)
    ++ [0, 0, 0, 0]).length, tr2 ++ [.cend 0 ((if (false || !B.isEmpty : Bool)
    then ([] : List Nat) else MAGIC) ++ [0, 0, 0, 0]).length,
    .write ((if (false || !B.isEmpty : Bool) then ([] : List Nat) else MAGIC)
    ++ [0, 0, 0, 0]).length], ?_⟩
  rw [hu]
  cases B with
  | nil => simp [chunks5, encBlocks, MAGIC]
  | cons b bs => simp [MAGIC]

/-- The model decode sub-loop, entered at a freshly read block-length
field, consumes the encoded blocks and the terminator and outputs the
concatenation of the blocks, leaving the bytes after the frame
unread. -/
theorem dLoopToyBody : ∀ (blocks : List (List Nat)) (after acc : List Nat)
    (tr : List Ev) (n : Nat),
    (∀ b ∈ blocks, 1 ≤ b.length ∧ b.length ≤ 5) →
    2 * blocks.length + 1 ≤ n →
    ∃ tr2, dFrameLoop toyD 9 n DSt.len
        ((encBlocks blocks ++ ([0, 0, 0, 0] ++ after)).take 4) 4
        ((encBlocks blocks ++ ([0, 0, 0, 0] ++ after)).drop 4) acc tr
      = .ok ⟨acc ++ blocks.flatten, after, DSt.magic, tr2⟩ := by
  intro blocks
  induction blocks with
  | nil =>
    intro after acc tr n hv hn
    obtain ⟨m, rfl⟩ : ∃ m, n = m + 1 := ⟨n - 1, by omega⟩
    refine ⟨tr ++ [.dcont [0, 0, 0, 0] 4 [] 0, .write 0], ?_⟩
    have h1 : ((encBlocks [] ++ ([0, 0, 0, 0] ++ after)).take 4) = [0, 0, 0, 0] := by
      simp [encBlocks]
    have h2 : ((encBlocks [] ++ ([0, 0, 0, 0] ++ after)).drop 4) = after := by
      simp [encBlocks]
    rw [h1, h2]
    simp [dFrameLoop, toyD_cont_len, MEM_readLE32]
  | cons b bs ih =>
    intro after acc tr n hv hn
    simp only [List.length_cons] at hn
    obtain ⟨m, rfl⟩ : ∃ m, n = m + 2 := ⟨n - 2, by omega⟩
    obtain ⟨hb1, hb5⟩ := hv b (List.mem_cons_self b bs)
    have hvb : ∀ c ∈ bs, 1 ≤ c.length ∧ c.length ≤ 5 := fun c hc =>
      hv c (List.mem_cons_of_mem b hc)
    have hb0 : ¬ (b.length = 0) := by omega
    have hb9 : ¬ (9 < b.length) := by omega
    have hstream : encBlocks (b :: bs) ++ ([0, 0, 0, 0] ++ after)
        = b.length :: 0 :: 0 :: 0 :: (b ++ (encBlocks bs ++ ([0, 0, 0, 0] ++ after))) := by
      rw [encBlocks_cons]
      simp [encBlock]
    have h1 : ((encBlocks (b :: bs) ++ ([0, 0, 0, 0] ++ after)).take 4)
        = [b.length, 0, 0, 0] := by
      rw [hstream]; simp
    have h2 : ((encBlocks (b :: bs) ++ ([0, 0, 0, 0] ++ after)).drop 4)
        = b ++ (encBlocks bs ++ ([0, 0, 0, 0] ++ after)) := by
      rw [hstream]; simp
    rw [h1, h2]
    have hr4 : ((encBlocks bs ++ ([0, 0, 0, 0] ++ after)).take 4).length = 4 := by
      simp [List.length_take, List.length_append]
      omega
    have hstep1 : dFrameLoop toyD 9 (m + 2) DSt.len [b.length, 0, 0, 0] 4
          (b ++ (encBlocks bs ++ ([0, 0, 0, 0] ++ after))) acc tr
        = dFrameLoop toyD 9 (m + 1) (DSt.data b.length) b b.length
            (encBlocks bs ++ ([0, 0, 0, 0] ++ after)) (acc ++ [])
            (tr ++ [.dcont [b.length, 0, 0, 0] 4 [] b.length, .write 0,
                    .readSrc b.length b.length]) := by
      simp only [dFrameLoop]
      simp [toyD_cont_len, MEM_readLE32, hb0, hb9, List.take_left, List.drop_left]
    have hstep2 : dFrameLoop toyD 9 (m + 1) (DSt.data b.length) b b.length
          (encBlocks bs ++ ([0, 0, 0, 0] ++ after)) (acc ++ [])
          (tr ++ [.dcont [b.length, 0, 0, 0] 4 [] b.length, .write 0,
                  .readSrc b.length b.length])
        = dFrameLoop toyD 9 m DSt.len
            ((encBlocks bs ++ ([0, 0, 0, 0] ++ after)).take 4) 4
            ((encBlocks bs ++ ([0, 0, 0, 0] ++ after)).drop 4) ((acc ++ []) ++ b)
            ((tr ++ [.dcont [b.length, 0, 0, 0] 4 [] b.length, .write 0,
                     .readSrc b.length b.length])
              ++ [.dcont b b.length b 4, .write b.length, .readSrc 4 4]) := by
      simp only [dFrameLoop]
      simp [toyD_cont_data, List.take_length, hb0, hr4]
      rw [if_neg (by omega)]
      rw [show (4 ⊓ ((encBlocks bs).length + (after.length + 1 + 1 + 1 + 1))) = 4 by omega]
    obtain ⟨tr3, ih3⟩ := ih after ((acc ++ []) ++ b)
      ((tr ++ [.dcont [b.length, 0, 0, 0] 4 [] b.length, .write 0,
               .readSrc b.length b.length])
        ++ [.dcont b b.length b 4, .write b.length, .readSrc 4 4]) m hvb (by omega)
    refine ⟨tr3, ?_⟩
    rw [hstep1, hstep2, ih3]
    simp

/-- Unfolding equation of one outer-loop iteration with fuel left. -/
theorem dFileLoop_succ {δ : Type} (eng : ZBUFF_DEngine δ) (isLegacy : Nat → Bool)
    (lg : Nat → List Nat → List Nat × List Nat) (cap fuel : Nat) (dctx : δ)
    (src out : List Nat) (filesize : Nat) (tr : List Ev) :
    dFileLoop eng isLegacy lg cap (fuel + 1) dctx src out filesize tr
      = (if (src.take 4).length = 0 then .ok ⟨out, filesize, tr ++ [.readSrc 4 0]⟩
         else if (src.take 4).length ≠ 4 then .error 31
         else if isLegacy (MEM_readLE32 (src.take 4)) then
           dFileLoop eng isLegacy lg cap fuel dctx
             (lg (MEM_readLE32 (src.take 4)) (src.drop 4)).2
             (out ++ (lg (MEM_readLE32 (src.take 4)) (src.drop 4)).1)
             (filesize + (lg (MEM_readLE32 (src.take 4)) (src.drop 4)).1.length)
             (tr ++ [.readSrc 4 4, .legacy (MEM_readLE32 (src.take 4))])
         else match FIO_decompressFrame eng cap fuel dctx (src.take 4) 4 (src.drop 4) with
           | .error e => .error e
           | .ok fr => dFileLoop eng isLegacy lg cap fuel fr.dctx fr.src (out ++ fr.output)
               (filesize + fr.output.length) (tr ++ [.readSrc 4 4] ++ fr.trace)) := rfl

/-- FIO_decompressFrame with the model engine, entered with the 4
magic bytes already buffered, decodes one whole model frame: it writes
the concatenation of the encoded blocks and stops at the terminator,
leaving the bytes after the frame unread. -/
theorem dFrameToy (blocks : List (List Nat)) (after : List Nat) (n : Nat)
    (hv : ∀ b ∈ blocks, 1 ≤ b.length ∧ b.length ≤ 5)
    (hn : 2 * blocks.length + 2 ≤ n) :
    ∃ tr2, FIO_decompressFrame toyD 9 n DSt.magic MAGIC 4
        (encBlocks blocks ++ ([0, 0, 0, 0] ++ after))
      = .ok ⟨blocks.flatten, after, DSt.magic, tr2⟩ := by
  obtain ⟨m, rfl⟩ : ∃ m, n = m + 1 := ⟨n - 1, by omega⟩
  have hstep0 : FIO_decompressFrame toyD 9 (m + 1) DSt.magic MAGIC 4
        (encBlocks blocks ++ ([0, 0, 0, 0] ++ after))
      = dFrameLoop toyD 9 m DSt.len
          ((encBlocks blocks ++ ([0, 0, 0, 0] ++ after)).take 4) 4
          ((encBlocks blocks ++ ([0, 0, 0, 0] ++ after)).drop 4) ([] ++ [])
          ([.dinit] ++ [.dcont [1, 2, 3, 4] 4 [] 4, .write 0, .readSrc 4 4]) := by
    simp only [FIO_decompressFrame, toyD_init]
    simp only [dFrameLoop]
    simp [toyD_cont_magic, MAGIC, List.length_take, List.length_append]
    rw [if_neg (by omega)]
    rw [show (4 ⊓ ((encBlocks blocks).length + (after.length + 1 + 1 + 1 + 1))) = 4
      by omega]
  obtain ⟨tr2, hbody⟩ := dLoopToyBody blocks after ([] ++ [])
    ([.dinit] ++ [.dcont [1, 2, 3, 4] 4 [] 4, .write 0, .readSrc 4 4]) m hv (by omega)
  refine ⟨tr2, ?_⟩
  rw [hstep0, hbody]
  simp

/-- C2: for every byte sequence B, including the empty one,
decompressing the output of compressing B with the spec-modelled codec
engine pair yields exactly B back. -/
theorem c2_roundtrip (B : List Nat) :
    ∃ r d, FIO_compressFilename toyC (B.length + 1) B 1 = .ok r
      ∧ FIO_decompressFilename toyD (fun _ => false) (fun _ s => ([], s))
          (2 * B.length + 8) r.written = .ok d
      ∧ d.output = B := by
  obtain ⟨cs2, tr2, hc⟩ := compressToy B
  have hv := chunks5_size B.length B (le_refl _)
  have hfl := chunks5_flatten B.length B (le_refl _)
  have hcl := chunks5_len B.length B (le_refl _)
  obtain ⟨ftr, hf⟩ := dFrameToy (chunks5 B) [] (2 * B.length + 7) hv (by omega)
  rw [List.append_nil] at hf
  have hW4 : ((MAGIC ++ (encBlocks (chunks5 B) ++ [0, 0, 0, 0])).take 4) = MAGIC :=
    List.take_left' rfl
  have hWd : ((MAGIC ++ (encBlocks (chunks5 B) ++ [0, 0, 0, 0])).drop 4)
      = encBlocks (chunks5 B) ++ [0, 0, 0, 0] :=
    List.drop_left' rfl
  have hd : FIO_decompressFilename toyD (fun _ => false) (fun _ s => ([], s))
      (2 * B.length + 8) (MAGIC ++ (encBlocks (chunks5 B) ++ [0, 0, 0, 0]))
      = .ok ⟨[] ++ (chunks5 B).flatten, 0 + (chunks5 B).flatten.length,
             (([] ++ [.readSrc 4 4] ++ ftr) ++ [.readSrc 4 0])⟩ := by
    simp only [FIO_decompressFilename, toyD_inSize, toyD_create]
    rw [show 2 * B.length + 8 = (2 * B.length + 7) + 1 by omega]
    have hstepA : dFileLoop toyD (fun _ => false) (fun _ s => ([], s)) 9
          ((2 * B.length + 7) + 1) DSt.magic
          (MAGIC ++ (encBlocks (chunks5 B) ++ [0, 0, 0, 0])) [] 0 []
        = match FIO_decompressFrame toyD 9 (2 * B.length + 7) DSt.magic MAGIC 4
            (encBlocks (chunks5 B) ++ [0, 0, 0, 0]) with
          | .error e => .error e
          | .ok fr => dFileLoop toyD (fun _ => false) (fun _ s => ([], s)) 9
              (2 * B.length + 7) fr.dctx fr.src ([] ++ fr.output) (0 + fr.output.length)
              ([] ++ [.readSrc 4 4] ++ fr.trace) := by
      rw [dFileLoop_succ, hW4, hWd]
      rw [if_neg (by decide), if_neg (by decide), if_neg (by decide)]
      cases FIO_decompressFrame toyD 9 (2 * B.length + 7) DSt.magic MAGIC 4
        (encBlocks (chunks5 B) ++ [0, 0, 0, 0]) <;> rfl
    rw [hstepA, hf]
    show dFileLoop toyD (fun _ => false) (fun _ s => ([], s)) 9 (2 * B.length + 7)
      DSt.magic [] ([] ++ (chunks5 B).flatten) (0 + (chunks5 B).flatten.length)
      ([] ++ [.readSrc 4 4] ++ ftr) = _
    rw [show 2 * B.length + 7 = (2 * B.length + 6) + 1 by omega, dFileLoop_succ]
    simp
  refine ⟨⟨cs2, MAGIC ++ (encBlocks (chunks5 B) ++ [0, 0, 0, 0]), tr2⟩,
    ⟨[] ++ (chunks5 B).flatten, 0 + (chunks5 B).flatten.length,
     (([] ++ [.readSrc 4 4] ++ ftr) ++ [.readSrc 4 0])⟩, hc, hd, ?_⟩
  simp [hfl]

end ZstdFio
